import Mathlib

/-!
Verification of the dqlite client wire-protocol engine
(`internal/client/client.go`): header framing, exact reads with a
no-progress bound, single-attempt writes, serialized calls, and the
heartbeat loop.  Go byte slices are modelled as `List Nat` with values
below 256 where it matters; machine integers are `Nat` (the Go code runs
on 64-bit `int`, and header fields are `uint32`/`uint16`/`byte`).
-/

/-- Result of one `conn.Read` call: the bytes produced and the error value.
Mirrors Go's `(n int, err error)` with `n = bytes.length`; a read may
return both data and an error, and the client checks the error first. -/
structure ReadStep where
  bytes : List Nat
  errv : Option Nat
deriving Repr, DecidableEq

/-- Result of one `conn.Write` call: how many bytes the stream accepted
and the error value. -/
structure WriteStep where
  n : Nat
  errv : Option Nat
deriving Repr, DecidableEq

/-- Behaviour of the connection's read side: the outcome of the k-th
`conn.Read` call made on it. -/
abbrev RConn := Nat → ReadStep

/-- Behaviour of the connection's write side: the outcome of the j-th
`conn.Write` call made on it. -/
abbrev WConn := Nat → WriteStep

/-- Go error values produced by the client, with `errors.Wrap` chains made
explicit: `wrap msg e` is `errors.Wrap(e, msg)`. -/
inductive Err where
  | noProgress
  | shortWrite
  | connErr (code : Nat)
  | wrap (msg : String) (e : Err)
deriving Repr, DecidableEq

/-- Does the error's wrap chain contain the given context message? -/
def Err.mentions : Err → String → Bool
  | .wrap m e, s => m = s || e.mentions s
  | _, _ => false

/-- One body buffer of a `Message` (`message.go`'s `buffer`): backing
bytes and the current offset of valid data. -/
structure MsgBody where
  Bytes : List Nat
  Offset : Nat
deriving Repr, DecidableEq

/-- The protocol `Message`: decoded header fields, the raw 8-byte header
block, the static body buffer and the optional dynamic body buffer
(`none` models Go's nil `body2.Bytes`). -/
structure Message where
  words : Nat
  mtype : Nat
  flags : Nat
  extra : Nat
  header : List Nat
  body1 : MsgBody
  body2 : Option MsgBody
deriving Repr, DecidableEq

/-- Modelled from the spec: `messageWordSize` is defined in the missing
`message.go`; the spec fixes the body-length unit ("Word") at 8 bytes. -/
def messageWordSize : Nat := 8

/-- Modelled from the spec: `messageHeaderSize` is defined in the missing
`message.go`; the spec fixes the header at exactly 8 bytes. -/
def messageHeaderSize : Nat := 8

/-- Modelled from the spec: `messageMaxConsecutiveEmptyReads` is defined
in the missing `message.go`; the spec gives the consecutive zero-byte
read bound as 100 (copied from `bufio`). -/
def messageMaxConsecutiveEmptyReads : Nat := 100

/-- Go slice expression `b[:m]`: the first `m` bytes, or a panic
(modelled as `none`) when `m` exceeds the slice's length/capacity. -/
def goSlice (b : List Nat) (m : Nat) : Option (List Nat) :=
  if m ≤ b.length then some (b.take m) else none

/-- `binary.LittleEndian.Uint16(b)`: `uint16(b[0]) | uint16(b[1])<<8`. -/
def leUint16 (b : List Nat) : Nat :=
  b.getD 0 0 ||| (b.getD 1 0 <<< 8)

/-- `binary.LittleEndian.Uint32(b)`:
`uint32(b[0]) | uint32(b[1])<<8 | uint32(b[2])<<16 | uint32(b[3])<<24`. -/
def leUint32 (b : List Nat) : Nat :=
  b.getD 0 0 ||| (b.getD 1 0 <<< 8) ||| (b.getD 2 0 <<< 16) ||| (b.getD 3 0 <<< 24)

/-- The value denoted by a little-endian byte string: `∑ bᵢ · 256^i`
(the spec's "unsigned … little-endian integer"). -/
def leVal : List Nat → Nat
  | [] => 0
  | b :: bs => b + 256 * leVal bs

/-- `recvFill`'s loop (`client.go` 169-186): try to fill a buffer of
`cap` free bytes, performing at most one successful read, giving up after
`bound` consecutive empty reads.  `k` counts `conn.Read` calls performed
so far; the returned `Nat` is the updated count (so `k' - k` is the
number of read attempts this invocation made). -/
def recvFillAux (conn : RConn) (cap : Nat) : Nat → Nat → Except Err (List Nat) × Nat
  | k, 0 => (.error .noProgress, k)
  | k, i + 1 =>
    let s := conn k
    match s.errv with
    | some c => (.error (.connErr c), k + 1)
    | none =>
      match s.bytes.take cap with
      | [] => recvFillAux conn cap (k + 1) i
      | b :: rest => (.ok (b :: rest), k + 1)

/-- `recvFill` with the configured empty-read bound. -/
def recvFill (conn : RConn) (cap k : Nat) : Except Err (List Nat) × Nat :=
  recvFillAux conn cap k messageMaxConsecutiveEmptyReads

/-- `recvPeek`'s loop (`client.go` 155-166): read until the buffer is
full.  `n` is the number of bytes still missing; returns the bytes read,
in order, and the updated read-call count. -/
def recvPeekAux (conn : RConn) (k n : Nat) : Except Err (List Nat) × Nat :=
  if h0 : n = 0 then (.ok [], k)
  else
    match h : recvFill conn n k with
    | (.error e, k') => (.error e, k')
    | (.ok bs, k') =>
      match recvPeekAux conn k' (n - bs.length) with
      | (.error e, k2) => (.error e, k2)
      | (.ok bs2, k2) => (.ok (bs ++ bs2), k2)
termination_by n
decreasing_by
  have hlen : 1 ≤ bs.length := by
    simp only [recvFill] at h
    generalize messageMaxConsecutiveEmptyReads = i at h
    induction i generalizing k with
    | zero => simp [recvFillAux] at h
    | succ i ih =>
      rw [recvFillAux] at h
      rcases hv : (conn k).errv with _ | c
      · rw [hv] at h
        rcases ht : (conn k).bytes.take n with _ | ⟨b, rest⟩
        · rw [ht] at h
          exact ih _ h
        · rw [ht] at h
          simp only [Prod.mk.injEq] at h
          obtain ⟨h1, _⟩ := h
          cases h1
          simp
      · rw [hv] at h
        simp at h
  omega

/-- Outcome of a client operation: success, a Go error value, or a Go
runtime panic (out-of-range slice). -/
inductive Outcome (α : Type) where
  | ok (a : α)
  | err (e : Err)
  | crash
deriving Repr, DecidableEq

/-- A connection operation as seen on the wire: one `conn.Write` call
with the bytes it was asked to write, or one `conn.Read` call. -/
inductive COp where
  | write (bytes : List Nat)
  | read
deriving Repr, DecidableEq

/-- Result of a send step: outcome, updated write-call count, and the
`conn.Write` operations performed, in order. -/
structure SendRes where
  out : Outcome Unit
  j : Nat
  ops : List COp
deriving Repr, DecidableEq

/-- `sendHeader` (`client.go` 76-87): one `conn.Write` of the 8-byte
header; an undersized accepted count is a short-write error. -/
def sendHeader (wconn : WConn) (j : Nat) (req : Message) : SendRes :=
  let w := wconn j
  match w.errv with
  | some c => ⟨.err (.wrap "failed to send header" (.connErr c)), j + 1, [.write req.header]⟩
  | none =>
    if w.n ≠ messageHeaderSize then
      ⟨.err (.wrap "failed to send header" .shortWrite), j + 1, [.write req.header]⟩
    else ⟨.ok (), j + 1, [.write req.header]⟩

/-- `sendBody` (`client.go` 89-115): one `conn.Write` of
`body1.Bytes[:body1.Offset]`, then, only when `body2.Bytes` is non-nil,
one `conn.Write` of `body2.Bytes[:body2.Offset]`; each undersized
accepted count is a short-write error. -/
def sendBody (wconn : WConn) (j : Nat) (req : Message) : SendRes :=
  match goSlice req.body1.Bytes req.body1.Offset with
  | none => ⟨.crash, j, []⟩
  | some buf =>
    let w := wconn j
    match w.errv with
    | some c => ⟨.err (.wrap "failed to send static body" (.connErr c)), j + 1, [.write buf]⟩
    | none =>
      if w.n ≠ buf.length then
        ⟨.err (.wrap "failed to write body" .shortWrite), j + 1, [.write buf]⟩
      else
        match req.body2 with
        | none => ⟨.ok (), j + 1, [.write buf]⟩
        | some b2 =>
          match goSlice b2.Bytes b2.Offset with
          | none => ⟨.crash, j + 1, [.write buf]⟩
          | some buf2 =>
            let w2 := wconn (j + 1)
            match w2.errv with
            | some c =>
              ⟨.err (.wrap "failed to send dynamic body" (.connErr c)), j + 2, [.write buf, .write buf2]⟩
            | none =>
              if w2.n ≠ buf2.length then
                ⟨.err (.wrap "failed to write body" .shortWrite), j + 2, [.write buf, .write buf2]⟩
              else ⟨.ok (), j + 2, [.write buf, .write buf2]⟩

/-- `send` (`client.go` 64-74): header write then body write(s), each
failure wrapped with its phase. -/
def send (wconn : WConn) (j : Nat) (req : Message) : SendRes :=
  let r1 := sendHeader wconn j req
  match r1.out with
  | .err e => ⟨.err (.wrap "failed to send header" e), r1.j, r1.ops⟩
  | .crash => r1
  | .ok _ =>
    let r2 := sendBody wconn r1.j req
    match r2.out with
    | .err e => ⟨.err (.wrap "failed to send body" e), r2.j, r1.ops ++ r2.ops⟩
    | .crash => ⟨.crash, r2.j, r1.ops ++ r2.ops⟩
    | .ok _ => ⟨.ok (), r2.j, r1.ops ++ r2.ops⟩

/-- `recvHeader` (`client.go` 129-140): read the 8 header bytes, then
decode word-count, type, flags and extra from the fixed layout. -/
def recvHeader (conn : RConn) (k : Nat) (res : Message) : Except Err Message × Nat :=
  match recvPeekAux conn k messageHeaderSize with
  | (.error e, k') => (.error (.wrap "failed to receive header" e), k')
  | (.ok hdr, k') =>
    (.ok { res with
            header := hdr
            words := leUint32 hdr
            mtype := hdr.getD 4 0
            flags := hdr.getD 5 0
            extra := leUint16 (hdr.drop 6) }, k')

/-- `recvBody` (`client.go` 142-153): slice the static buffer to
`words * 8` bytes (a panic when that exceeds its length — the `TODO`
at line 145) and read exactly that many bytes into it. -/
def recvBody (conn : RConn) (k : Nat) (res : Message) : Outcome Message × Nat :=
  let n := res.words * messageWordSize
  match goSlice res.body1.Bytes n with
  | none => (.crash, k)
  | some _ =>
    match recvPeekAux conn k n with
    | (.error e, k') => (.err (.wrap "failed to read body" e), k')
    | (.ok bs, k') =>
      (.ok { res with body1 := ⟨bs ++ res.body1.Bytes.drop n, res.body1.Offset⟩ }, k')

/-- `recv` (`client.go` 117-127): header then body, each failure wrapped
with its phase. -/
def recv (conn : RConn) (k : Nat) (res : Message) : Outcome Message × Nat :=
  match recvHeader conn k res with
  | (.error e, k') => (.err (.wrap "failed to receive header" e), k')
  | (.ok res1, k') =>
    match recvBody conn k' res1 with
    | (.crash, k2) => (.crash, k2)
    | (.err e, k2) => (.err (.wrap "failed to receive body" e), k2)
    | (.ok res2, k2) => (.ok res2, k2)

/-- The observable inputs of a `context.Context`: a deadline and a
cancellation flag. -/
structure Ctx where
  deadline : Option Nat
  cancelled : Bool
deriving Repr, DecidableEq

/-- The `conn.Read` calls between counts `k` and `k'`, as wire
operations. -/
def recvOps (k k' : Nat) : List COp :=
  List.replicate (k' - k) COp.read

/-- Result of `Call`: outcome, final read/write call counts, the wire
operations performed in order, and the state of the mutex after return
(`defer c.mu.Unlock()` runs on every path). -/
structure CallRes where
  out : Outcome Message
  rk : Nat
  wk : Nat
  ops : List COp
  muLocked : Bool
deriving Repr, DecidableEq

/-- `Call` (`client.go` 40-56): under the mutex, send the request then
receive the response; the `ctx` argument is accepted but never consulted
(`// TODO: honor ctx`). -/
def Call (ctx : Ctx) (rconn : RConn) (wconn : WConn) (rk wk : Nat)
    (request response : Message) : CallRes :=
  let s := send wconn wk request
  match s.out with
  | .crash => ⟨.crash, rk, s.j, s.ops, false⟩
  | .err e => ⟨.err (.wrap "failed to send request" e), rk, s.j, s.ops, false⟩
  | .ok _ =>
    match recv rconn rk response with
    | (.crash, k2) => ⟨.crash, k2, s.j, s.ops ++ recvOps rk k2, false⟩
    | (.err e, k2) =>
      ⟨.err (.wrap "failed to receive response" e), k2, s.j, s.ops ++ recvOps rk k2, false⟩
    | (.ok res2, k2) => ⟨.ok res2, k2, s.j, s.ops ++ recvOps rk k2, false⟩

/-- Modelled from the spec: the collaborator outcomes one heartbeat tick
observes — the stop signal, the `Call` result, the `DecodeServers`
result, and the `store.Set` result (`EncodeHeartbeat`, `DecodeServers`
and the store live outside this file's source). -/
structure TickEnv where
  closed : Bool
  callErr : Option Err
  decodeRes : Except Err (List String)
  setErr : Option Err
deriving Repr

/-- An action performed by the heartbeat loop during tick `t`. -/
inductive HbEvent where
  | call (t : Nat)
  | decode (t : Nat)
  | setAddrs (t : Nat) (addrs : List String)
deriving Repr, DecidableEq

/-- The tick an event belongs to. -/
def HbEvent.tick : HbEvent → Nat
  | .call t => t
  | .decode t => t
  | .setAddrs t _ => t

/-- A tick on which the loop continues: not closed, `Call` succeeded,
decode succeeded and the store update succeeded. -/
def tickOk (e : TickEnv) : Prop :=
  e.closed = false ∧ e.callErr = none ∧ (∃ addrs, e.decodeRes = .ok addrs) ∧ e.setErr = none

instance (e : TickEnv) : Decidable (tickOk e) := by
  unfold tickOk
  rcases h : e.decodeRes with e' | a
  · exact .isFalse (by simp [h])
  · exact decidable_of_iff (e.closed = false ∧ e.callErr = none ∧ e.setErr = none) (by simp [h])

/-- The heartbeat loop (`client.go` 188-227), observed for at most `fuel`
ticks starting at tick `k`: each iteration sleeps, checks the stop
channel, issues one `Call`, decodes the server list and publishes it,
bailing out of the loop on the first failure of any step. -/
def heartbeatRun (env : Nat → TickEnv) : Nat → Nat → List HbEvent
  | _, 0 => []
  | k, fuel + 1 =>
    let e := env k
    if e.closed then []
    else
      match e.callErr with
      | some _ => [.call k]
      | none =>
        match e.decodeRes with
        | .error _ => [.call k, .decode k]
        | .ok addrs =>
          match e.setErr with
          | some _ => [.call k, .decode k, .setAddrs k addrs]
          | none => .call k :: .decode k :: .setAddrs k addrs :: heartbeatRun env (k + 1) fuel

/-- Thread identifier for two concurrent `Call` invocations: `false` is
caller A, `true` is caller B. -/
abbrev TID := Bool

/-- State of two threads racing to `Call` on one Client: who holds
`c.mu`, each thread's program counter, and the wire trace so far.  A
thread's program is: acquire the mutex (pc 0), perform its call's
connection operations (pc 1 … len), release the mutex (pc len+1),
done (pc len+2). -/
structure LockSt where
  holder : Option TID
  pcA : Nat
  pcB : Nat
  tr : List (TID × COp)
deriving Repr, DecidableEq

/-- The initial state: mutex free, both threads before `mu.Lock()`,
nothing on the wire. -/
def initLockSt : LockSt := ⟨none, 0, 0, []⟩

/-- Interleaving semantics of two concurrent `Call` invocations whose
critical sections perform the connection operations `sA` and `sB`
(`client.go` 40-56: `mu.Lock()`; send and receive on `conn`;
deferred `mu.Unlock()`).  The mutex can be acquired only when free and
connection operations happen only while holding it. -/
inductive CallStep (sA sB : List COp) : LockSt → LockSt → Prop where
  | lockA {s : LockSt} : s.holder = none → s.pcA = 0 →
      CallStep sA sB s { s with holder := some false, pcA := 1 }
  | emitA {s : LockSt} {i : Nat} : s.holder = some false → s.pcA = i + 1 →
      (h : i < sA.length) →
      CallStep sA sB s { s with pcA := i + 2, tr := s.tr ++ [(false, sA.get ⟨i, h⟩)] }
  | unlockA {s : LockSt} : s.holder = some false → s.pcA = sA.length + 1 →
      CallStep sA sB s { s with holder := none, pcA := sA.length + 2 }
  | lockB {s : LockSt} : s.holder = none → s.pcB = 0 →
      CallStep sA sB s { s with holder := some true, pcB := 1 }
  | emitB {s : LockSt} {i : Nat} : s.holder = some true → s.pcB = i + 1 →
      (h : i < sB.length) →
      CallStep sA sB s { s with pcB := i + 2, tr := s.tr ++ [(true, sB.get ⟨i, h⟩)] }
  | unlockB {s : LockSt} : s.holder = some true → s.pcB = sB.length + 1 →
      CallStep sA sB s { s with holder := none, pcB := sB.length + 2 }

/-- States reachable by interleaving the two calls from the initial
state. -/
inductive ReachCall (sA sB : List COp) : LockSt → Prop where
  | init : ReachCall sA sB initLockSt
  | step {s s' : LockSt} : ReachCall sA sB s → CallStep sA sB s s' → ReachCall sA sB s'

/-- How many of its operations thread A has emitted in state `s`. -/
def emA (sA : List COp) (s : LockSt) : Nat := min (s.pcA - 1) sA.length

/-- How many of its operations thread B has emitted in state `s`. -/
def emB (sB : List COp) (s : LockSt) : Nat := min (s.pcB - 1) sB.length

/-- The contiguous block of wire operations thread A has produced. -/
def blockA (sA : List COp) (s : LockSt) : List (TID × COp) :=
  (sA.take (emA sA s)).map (fun o => (false, o))

/-- The contiguous block of wire operations thread B has produced. -/
def blockB (sB : List COp) (s : LockSt) : List (TID × COp) :=
  (sB.take (emB sB s)).map (fun o => (true, o))

/-- A stream that yields exactly one byte, `f k`, on the k-th read. -/
def oneByteConn (f : Nat → Nat) : RConn := fun k => ⟨[f k], none⟩

/-- A stream whose every read returns zero bytes and no error. -/
def emptyReadConn : RConn := fun _ => ⟨[], none⟩

/-- A fresh zeroed `Message` with an empty static buffer. -/
def msg0 : Message := ⟨0, 0, 0, 0, [], ⟨[], 0⟩, none⟩

/-- Byte source for witness runs: the bytes 1,…,8 then zeros. -/
def hdrF : Nat → Nat := fun j => [1, 2, 3, 4, 5, 6, 7, 8].getD j 0

/-- A witness response `Message`: decoded word-count 1 and an 8-byte
static buffer. -/
def msg1 : Message := ⟨1, 0, 0, 0, [], ⟨[0, 0, 0, 0, 0, 0, 0, 0], 0⟩, none⟩

/-- A witness response `Message` whose decoded word-count (2 words =
16 bytes) exceeds its 8-byte static buffer. -/
def msg2 : Message := ⟨2, 0, 0, 0, [], ⟨[0, 0, 0, 0, 0, 0, 0, 0], 0⟩, none⟩

/-- A stream that returns zero bytes on the first two reads and then one
byte, 9, on every later read. -/
def lateConn : RConn := fun k => if k < 2 then ⟨[], none⟩ else ⟨[9], none⟩

/-- A stream whose every write accepts only 3 bytes, without error. -/
def wc3 : WConn := fun _ => ⟨3, none⟩

/-- A stream whose every write accepts everything it is offered would
need the requested size; this one always accepts exactly 8 bytes. -/
def wc8 : WConn := fun _ => ⟨8, none⟩

/-- A witness request: an 8-byte header and a 4-byte static body. -/
def msgS : Message := ⟨1, 0, 0, 0, [1, 2, 3, 4, 5, 6, 7, 8], ⟨[1, 2, 3, 4], 4⟩, none⟩

/-- A witness context value (no deadline, not cancelled). -/
def ctx0 : Ctx := ⟨none, false⟩

/-- Is this event a directory publication belonging to tick `k`? -/
def HbEvent.isSetAt : HbEvent → Nat → Bool
  | .setAddrs t _, k => t == k
  | _, _ => false

/-- A witness heartbeat environment: tick 0 succeeds and decodes two
addresses, every later tick's `Call` fails. -/
def env0 : Nat → TickEnv := fun k =>
  if k = 0 then ⟨false, none, .ok ["10.0.0.1:9000", "10.0.0.2:9000"], none⟩
  else ⟨false, some .noProgress, .ok [], none⟩

/-- The inductive invariant of the two-caller interleaving: program
counters stay in range, a thread's counter is inside its critical
section exactly when it holds the mutex, and the wire trace is one
thread's contiguous block followed by the other's, where a block that
precedes a non-empty other block is complete. -/
def LockInv (sA sB : List COp) (s : LockSt) : Prop :=
  s.pcA ≤ sA.length + 2 ∧ s.pcB ≤ sB.length + 2 ∧
  ((1 ≤ s.pcA ∧ s.pcA ≤ sA.length + 1) ↔ s.holder = some false) ∧
  ((1 ≤ s.pcB ∧ s.pcB ≤ sB.length + 1) ↔ s.holder = some true) ∧
  ((s.tr = blockA sA s ++ blockB sB s ∧ (blockB sB s ≠ [] → s.pcA = sA.length + 2)) ∨
   (s.tr = blockB sB s ++ blockA sA s ∧ (blockA sA s ≠ [] → s.pcB = sB.length + 2)))

theorem recvFillAux_ok_len {conn : RConn} {cap k i : Nat} {bs : List Nat} {k' : Nat}
    (h : recvFillAux conn cap k i = (.ok bs, k')) :
    1 ≤ bs.length ∧ bs.length ≤ cap := by
  induction i generalizing k with
  | zero => simp [recvFillAux] at h
  | succ i ih =>
    rw [recvFillAux] at h
    rcases hv : (conn k).errv with _ | c
    · rw [hv] at h
      rcases ht : (conn k).bytes.take cap with _ | ⟨b, rest⟩
      · rw [ht] at h
        exact ih h
      · rw [ht] at h
        simp only [Prod.mk.injEq] at h
        obtain ⟨h1, _⟩ := h
        cases h1
        constructor
        · simp
        · have := List.length_take_le cap (conn k).bytes
          rw [ht] at this
          exact this
    · rw [hv] at h
      simp at h

theorem lor_shl_eq_add (k a b : Nat) (h : a < 2 ^ k) :
    a ||| (b <<< k) = a + b * 2 ^ k := by
  apply Nat.eq_of_testBit_eq
  intro i
  rw [Nat.testBit_or, Nat.testBit_shiftLeft]
  rcases Nat.lt_or_ge i k with hik | hik
  · have hk : ¬ k ≤ i := by omega
    have epow : (2 : Nat) ^ (k - i) * 2 ^ i = 2 ^ k := by
      rw [← Nat.pow_add]
      congr 1
      omega
    have e1 : a + b * 2 ^ k = a + (b * 2 ^ (k - i)) * 2 ^ i := by
      rw [Nat.mul_assoc, epow]
    have epow2 : (2 : Nat) ^ (k - i - 1) * 2 = 2 ^ (k - i) := by
      rw [← Nat.pow_succ]
      congr 1
      omega
    have e2 : b * 2 ^ (k - i) = (b * 2 ^ (k - i - 1)) * 2 := by
      rw [Nat.mul_assoc, epow2]
    have hdm : (a + b * 2 ^ k) / 2 ^ i % 2 = a / 2 ^ i % 2 := by
      rw [e1, Nat.add_mul_div_right _ _ (Nat.two_pow_pos i), e2,
        Nat.add_mul_mod_self_right]
    simp [Nat.testBit_to_div_mod, hdm, hk]
  · have epow : (2 : Nat) ^ k * 2 ^ (i - k) = 2 ^ i := by
      rw [← Nat.pow_add]
      congr 1
      omega
    have hai : a < 2 ^ i :=
      Nat.lt_of_lt_of_le h (Nat.pow_le_pow_right (by omega) hik)
    have ha : a / 2 ^ i = 0 := Nat.div_eq_of_lt hai
    have hdm : (a + b * 2 ^ k) / 2 ^ i = b / 2 ^ (i - k) := by
      rw [← epow, ← Nat.div_div_eq_div_mul,
        Nat.add_mul_div_right _ _ (Nat.two_pow_pos k), Nat.div_eq_of_lt h,
        Nat.zero_add]
    simp [Nat.testBit_to_div_mod, hdm, hik, ha]

theorem leUint32_eq_leVal (b0 b1 b2 b3 : Nat) (rest : List Nat)
    (h0 : b0 < 256) (h1 : b1 < 256) (h2 : b2 < 256) :
    leUint32 (b0 :: b1 :: b2 :: b3 :: rest) = leVal [b0, b1, b2, b3] := by
  have s1 : b0 ||| (b1 <<< 8) = b0 + b1 * 2 ^ 8 := lor_shl_eq_add 8 b0 b1 (by omega)
  have s2 : (b0 + b1 * 2 ^ 8) ||| (b2 <<< 16) = b0 + b1 * 2 ^ 8 + b2 * 2 ^ 16 :=
    lor_shl_eq_add 16 _ b2 (by omega)
  have s3 : (b0 + b1 * 2 ^ 8 + b2 * 2 ^ 16) ||| (b3 <<< 24) =
      b0 + b1 * 2 ^ 8 + b2 * 2 ^ 16 + b3 * 2 ^ 24 :=
    lor_shl_eq_add 24 _ b3 (by omega)
  simp only [leUint32, List.getD_cons_zero, List.getD_cons_succ, leVal]
  rw [s1, s2, s3]
  norm_num
  ring

theorem leUint16_eq_leVal (b0 b1 : Nat) (rest : List Nat) (h0 : b0 < 256) :
    leUint16 (b0 :: b1 :: rest) = leVal [b0, b1] := by
  have s1 : b0 ||| (b1 <<< 8) = b0 + b1 * 2 ^ 8 := lor_shl_eq_add 8 b0 b1 (by omega)
  simp only [leUint16, List.getD_cons_zero, List.getD_cons_succ, leVal]
  rw [s1]
  norm_num
  ring

theorem recvFillAux_connErr {conn : RConn} {cap k i c : Nat}
    (hi : i ≠ 0) (he : (conn k).errv = some c) :
    recvFillAux conn cap k i = (.error (.connErr c), k + 1) := by
  cases i with
  | zero => exact absurd rfl hi
  | succ i =>
    rw [recvFillAux]
    simp [he]

theorem recvFillAux_read {conn : RConn} {cap k i : Nat} (hi : i ≠ 0)
    (he : (conn k).errv = none) {b : Nat} {rest : List Nat}
    (ht : (conn k).bytes.take cap = b :: rest) :
    recvFillAux conn cap k i = (.ok (b :: rest), k + 1) := by
  cases i with
  | zero => exact absurd rfl hi
  | succ i =>
    rw [recvFillAux]
    simp [he, ht]

theorem recvFillAux_emptyStep {conn : RConn} {cap k i : Nat}
    (he : (conn k).errv = none) (ht : (conn k).bytes.take cap = []) :
    recvFillAux conn cap k (i + 1) = recvFillAux conn cap (k + 1) i := by
  rw [recvFillAux]
  simp [he, ht]

theorem recvFillAux_allEmpty {conn : RConn} {cap : Nat}
    (hc : ∀ j, conn j = ⟨[], none⟩) :
    ∀ i k, recvFillAux conn cap k i = (.error .noProgress, k + i) := by
  intro i
  induction i with
  | zero =>
    intro k
    simp [recvFillAux]
  | succ i ih =>
    intro k
    rw [recvFillAux_emptyStep (by simp [hc]) (by simp [hc]), ih]
    simp only [Prod.mk.injEq, true_and]
    omega

theorem recvFillAux_progress {conn : RConn} {cap : Nat} :
    ∀ (d i k : Nat), d < i →
    (∀ m, m < d → conn (k + m) = ⟨[], none⟩) →
    (conn (k + d)).errv = none →
    ∀ {b : Nat} {rest : List Nat}, (conn (k + d)).bytes.take cap = b :: rest →
    recvFillAux conn cap k i = (.ok (b :: rest), k + d + 1) := by
  intro d
  induction d with
  | zero =>
    intro i k hd hm he b rest ht
    rw [recvFillAux_read (by omega) (by simpa using he) (by simpa using ht)]
  | succ d ih =>
    intro i k hd hm he b rest ht
    obtain ⟨i', rfl⟩ : ∃ i', i = i' + 1 := ⟨i - 1, by omega⟩
    have h0 : conn k = ⟨[], none⟩ := by
      have := hm 0 (by omega)
      simpa using this
    rw [recvFillAux_emptyStep (by simp [h0]) (by simp [h0])]
    have hm' : ∀ m, m < d → conn (k + 1 + m) = ⟨[], none⟩ := by
      intro m hmd
      have := hm (m + 1) (by omega)
      rw [show k + 1 + m = k + (m + 1) by omega]
      exact this
    have he' : (conn (k + 1 + d)).errv = none := by
      rw [show k + 1 + d = k + (d + 1) by omega]
      exact he
    have ht' : (conn (k + 1 + d)).bytes.take cap = b :: rest := by
      rw [show k + 1 + d = k + (d + 1) by omega]
      exact ht
    rw [ih i' (k + 1) (by omega) hm' he' ht']
    simp only [Prod.mk.injEq, true_and]
    omega

theorem recvPeekAux_ok_length {conn : RConn} {n : Nat} :
    ∀ {k : Nat} {bs : List Nat} {k' : Nat},
    recvPeekAux conn k n = (.ok bs, k') → bs.length = n := by
  induction n using Nat.strong_induction_on with
  | _ n ih =>
    intro k bs k' h
    rw [recvPeekAux] at h
    split at h
    · rename_i h0
      simp only [Prod.mk.injEq] at h
      obtain ⟨h1, _⟩ := h
      cases h1
      simp [h0]
    · rename_i h0
      split at h
      · simp at h
      · rename_i bs1 k1 hh
        split at h
        · simp at h
        · rename_i bs2 k2 hh2
          simp only [Prod.mk.injEq] at h
          obtain ⟨h1, _⟩ := h
          cases h1
          have hlen := recvFillAux_ok_len hh
          have hrec := ih (n - bs1.length) (by omega) hh2
          simp only [List.length_append, hrec]
          omega

theorem recvPeekAux_oneByte (f : Nat → Nat) :
    ∀ (n k : Nat),
    recvPeekAux (oneByteConn f) k n = (.ok ((List.range' k n).map f), k + n) := by
  intro n
  induction n with
  | zero =>
    intro k
    rw [recvPeekAux]
    simp
  | succ n ih =>
    intro k
    have hf : recvFill (oneByteConn f) (n + 1) k = (.ok [f k], k + 1) := by
      apply recvFillAux_read (by simp [messageMaxConsecutiveEmptyReads]) rfl
      simp [oneByteConn]
    rw [recvPeekAux]
    simp only [Nat.succ_ne_zero, dite_false]
    split
    · rename_i e k1 heq
      rw [hf] at heq
      simp at heq
    · rename_i bs k1 heq
      rw [hf] at heq
      simp only [Prod.mk.injEq, Except.ok.injEq] at heq
      obtain ⟨h1, h2⟩ := heq
      subst h1
      subst h2
      have hn1 : n + 1 - List.length [f k] = n := by simp
      rw [hn1, ih (k + 1)]
      simp only [Prod.mk.injEq]
      constructor
      · rw [List.range'_succ]
        simp
      · omega

theorem recvPeekAux_noProgress {n k : Nat} (hn : n ≠ 0) :
    recvPeekAux emptyReadConn k n =
      (.error .noProgress, k + messageMaxConsecutiveEmptyReads) := by
  have hfill : recvFill emptyReadConn n k =
      (.error .noProgress, k + messageMaxConsecutiveEmptyReads) :=
    recvFillAux_allEmpty (fun j => rfl) messageMaxConsecutiveEmptyReads k
  rw [recvPeekAux]
  simp only [hn, dite_false]
  split
  · rename_i e k1 heq
    rw [hfill] at heq
    simp only [Prod.mk.injEq, Except.error.injEq] at heq
    obtain ⟨h1, h2⟩ := heq
    subst h1
    subst h2
    rfl
  · rename_i bs k1 heq
    rw [hfill] at heq
    simp at heq

theorem recvHeader_ok {conn : RConn} {k : Nat} {res : Message} {hdr : List Nat} {k' : Nat}
    (hp : recvPeekAux conn k messageHeaderSize = (.ok hdr, k')) :
    recvHeader conn k res =
      (.ok { res with
              header := hdr
              words := leUint32 hdr
              mtype := hdr.getD 4 0
              flags := hdr.getD 5 0
              extra := leUint16 (hdr.drop 6) }, k') := by
  simp only [recvHeader, hp]

theorem recvBody_ok {conn : RConn} {k : Nat} {res : Message} {bs : List Nat} {k' : Nat}
    (hn : res.words * messageWordSize ≤ res.body1.Bytes.length)
    (hp : recvPeekAux conn k (res.words * messageWordSize) = (.ok bs, k')) :
    recvBody conn k res =
      (.ok { res with
              body1 := ⟨bs ++ res.body1.Bytes.drop (res.words * messageWordSize),
                        res.body1.Offset⟩ }, k') := by
  simp only [recvBody, goSlice, hn, if_true, hp]

theorem recvBody_ok_inv {conn : RConn} {k : Nat} {res res' : Message} {k' : Nat}
    (h : recvBody conn k res = (.ok res', k')) :
    ∃ bs, recvPeekAux conn k (res.words * messageWordSize) = (.ok bs, k') ∧
      bs.length = res.words * messageWordSize ∧
      res'.body1.Bytes = bs ++ res.body1.Bytes.drop (res.words * messageWordSize) ∧
      res'.body1.Offset = res.body1.Offset ∧
      res'.body2 = res.body2 ∧
      res'.words = res.words ∧
      res'.header = res.header := by
  simp only [recvBody] at h
  split at h
  · simp at h
  · split at h
    · simp at h
    · rename_i bs1 k1 hh
      simp only [Prod.mk.injEq] at h
      obtain ⟨h1, h2⟩ := h
      subst h2
      injection h1 with h1
      subst h1
      exact ⟨bs1, hh, recvPeekAux_ok_length hh, rfl, rfl, rfl, rfl, rfl⟩

/-- C1: for every 8-byte header block received, `recvHeader` decodes
word-count as the unsigned 32-bit little-endian integer at bytes 0-3,
message-type as byte 4, flags as byte 5, and extra as the unsigned
16-bit little-endian integer at bytes 6-7 — the fixed wire layout
`[word-count:4][type:1][flags:1][extra:2]` — for all byte values. -/
theorem claim_C1_recvHeader_layout (conn : RConn) (k k' : Nat) (res : Message)
    (hdr : List Nat)
    (hp : recvPeekAux conn k messageHeaderSize = (.ok hdr, k'))
    (hb : ∀ x ∈ hdr, x < 256) :
    ∃ res', recvHeader conn k res = (.ok res', k') ∧
      res'.words = leVal (hdr.take 4) ∧
      res'.mtype = hdr.getD 4 0 ∧
      res'.flags = hdr.getD 5 0 ∧
      res'.extra = leVal (hdr.drop 6) := by
  have hlen : hdr.length = messageHeaderSize := recvPeekAux_ok_length hp
  rcases hdr with _ | ⟨b0, _ | ⟨b1, _ | ⟨b2, _ | ⟨b3, _ | ⟨b4, _ | ⟨b5, _ | ⟨b6, _ | ⟨b7, tl⟩⟩⟩⟩⟩⟩⟩⟩ <;>
    simp [messageHeaderSize] at hlen
  subst hlen
  have h0 : b0 < 256 := hb b0 (by simp)
  have h1 : b1 < 256 := hb b1 (by simp)
  have h2 : b2 < 256 := hb b2 (by simp)
  have h6 : b6 < 256 := hb b6 (by simp)
  refine ⟨_, recvHeader_ok hp, ?_, ?_, ?_, ?_⟩
  · show leUint32 [b0, b1, b2, b3, b4, b5, b6, b7] = _
    rw [leUint32_eq_leVal b0 b1 b2 b3 [b4, b5, b6, b7] h0 h1 h2]
    simp
  · simp
  · simp
  · show leUint16 ([b0, b1, b2, b3, b4, b5, b6, b7].drop 6) = _
    simp only [List.drop]
    rw [leUint16_eq_leVal b6 b7 [] h6]

theorem claim_C1_witness :
    (∀ x ∈ [1, 2, 3, 4, 5, 6, 7, 8], x < 256) ∧
    ∃ res', recvHeader (oneByteConn hdrF) 0 msg0 = (.ok res', 8) ∧
      res'.words = leVal ([1, 2, 3, 4, 5, 6, 7, 8].take 4) ∧
      res'.mtype = [1, 2, 3, 4, 5, 6, 7, 8].getD 4 0 ∧
      res'.flags = [1, 2, 3, 4, 5, 6, 7, 8].getD 5 0 ∧
      res'.extra = leVal ([1, 2, 3, 4, 5, 6, 7, 8].drop 6) :=
  ⟨by decide,
   claim_C1_recvHeader_layout (oneByteConn hdrF) 0 8 msg0 [1, 2, 3, 4, 5, 6, 7, 8]
     (by rw [show (messageHeaderSize : Nat) = 8 from rfl, recvPeekAux_oneByte]; rfl)
     (by decide)⟩

/-- C4: `recvPeek` (ReadExact) fills the destination completely by
repeated underlying reads — any successful return has placed exactly the
requested `n` bytes — and it tolerates arbitrarily short reads: over a
source yielding one byte per read it still succeeds and returns the `n`
stream bytes in order. -/
theorem claim_C4_readExact_fills :
    (∀ (conn : RConn) (k n k' : Nat) (bs : List Nat),
      recvPeekAux conn k n = (.ok bs, k') → bs.length = n) ∧
    (∀ (f : Nat → Nat) (n k : Nat),
      recvPeekAux (oneByteConn f) k n = (.ok ((List.range' k n).map f), k + n)) :=
  ⟨fun _ _ _ _ _ h => recvPeekAux_ok_length h,
   fun f n k => recvPeekAux_oneByte f n k⟩

theorem claim_C4_witness :
    recvPeekAux (oneByteConn hdrF) 0 3 = (.ok ((List.range' 0 3).map hdrF), 0 + 3) ∧
    ((List.range' 0 3).map hdrF).length = 3 :=
  ⟨claim_C4_readExact_fills.2 hdrF 3 0,
   claim_C4_readExact_fills.1 (oneByteConn hdrF) 0 3 (0 + 3) _
     (claim_C4_readExact_fills.2 hdrF 3 0)⟩

/-- C5: over a stream whose every read returns zero bytes and no error,
`recvPeek` on a non-empty buffer fails with the no-progress error after
exactly `messageMaxConsecutiveEmptyReads` read attempts (the final read
count is the initial one plus the bound); and zero-byte reads followed
by progress within the bound yield a successful fill, not this error. -/
theorem claim_C5_noProgress_bound :
    (∀ n k : Nat, n ≠ 0 →
      recvPeekAux emptyReadConn k n =
        (.error .noProgress, k + messageMaxConsecutiveEmptyReads)) ∧
    (∀ (conn : RConn) (cap d : Nat), d < messageMaxConsecutiveEmptyReads →
      (∀ m, m < d → conn m = ⟨[], none⟩) →
      (conn d).errv = none →
      ∀ (b : Nat) (rest : List Nat), (conn d).bytes.take cap = b :: rest →
      recvFill conn cap 0 = (.ok (b :: rest), d + 1)) := by
  constructor
  · intro n k hn
    exact recvPeekAux_noProgress hn
  · intro conn cap d hd hm he b rest ht
    have := recvFillAux_progress d messageMaxConsecutiveEmptyReads 0 hd
      (by intro m hmd; simpa using hm m hmd) (by simpa using he)
      (by simpa using ht)
    simpa [recvFill] using this

theorem claim_C5_witness :
    recvPeekAux emptyReadConn 0 5 =
      (.error .noProgress, 0 + messageMaxConsecutiveEmptyReads) ∧
    recvFill lateConn 4 0 = (.ok [9], 2 + 1) :=
  ⟨claim_C5_noProgress_bound.1 5 0 (by decide),
   claim_C5_noProgress_bound.2 lateConn 4 2 (by decide)
     (by decide) (by decide) 9 [] (by decide)⟩

/-- C2: whenever the body-receive step succeeds for a response whose
decoded word-count is `words`, it has read exactly `words * 8` bytes
from the connection into the response's primary buffer, and the
secondary (overflow) buffer is left untouched. -/
theorem claim_C2_recvBody_exact (conn : RConn) (k : Nat) (res res' : Message) (k' : Nat)
    (h : recvBody conn k res = (.ok res', k')) :
    ∃ bs, recvPeekAux conn k (res.words * messageWordSize) = (.ok bs, k') ∧
      bs.length = res.words * messageWordSize ∧
      res'.body1.Bytes = bs ++ res.body1.Bytes.drop (res.words * messageWordSize) ∧
      res'.body2 = res.body2 := by
  obtain ⟨bs, h1, h2, h3, _, h5, _, _⟩ := recvBody_ok_inv h
  exact ⟨bs, h1, h2, h3, h5⟩

theorem claim_C2_witness :
    ∃ bs, recvPeekAux (oneByteConn hdrF) 0 (msg1.words * messageWordSize) = (.ok bs, 8) ∧
      bs.length = msg1.words * messageWordSize ∧
      bs ++ msg1.body1.Bytes.drop (msg1.words * messageWordSize) =
        bs ++ msg1.body1.Bytes.drop (msg1.words * messageWordSize) ∧
      msg1.body2 = msg1.body2 := by
  have hp : recvPeekAux (oneByteConn hdrF) 0 (msg1.words * messageWordSize) =
      (.ok (List.map hdrF (List.range' 0 8)), 8) := by
    rw [show msg1.words * messageWordSize = 8 from rfl, recvPeekAux_oneByte]
  have hn : msg1.words * messageWordSize ≤ msg1.body1.Bytes.length := by decide
  obtain ⟨bs, h1, h2, h3, h4⟩ :=
    claim_C2_recvBody_exact (oneByteConn hdrF) 0 msg1 _ 8 (recvBody_ok hn hp)
  exact ⟨bs, h1, h2, rfl, rfl⟩

/-- C10: the body-receive step has no bounds check — for every response
whose decoded word-count times 8 exceeds the primary buffer's length,
`recvBody` reaches the out-of-range slice panic instead of returning a
clean error. -/
theorem claim_C10_oversized_crash (conn : RConn) (k : Nat) (res : Message)
    (h : res.body1.Bytes.length < res.words * messageWordSize) :
    recvBody conn k res = (.crash, k) := by
  simp only [recvBody, goSlice]
  rw [if_neg (by omega)]

theorem claim_C10_witness :
    msg2.body1.Bytes.length < msg2.words * messageWordSize ∧
    recvBody emptyReadConn 0 msg2 = (.crash, 0) :=
  ⟨by decide, claim_C10_oversized_crash emptyReadConn 0 msg2 (by decide)⟩

/-- C6: each write step of a send — header, static body segment and,
when the dynamic buffer is present, dynamic body segment — performs
exactly one underlying `conn.Write`; a single write that accepts fewer
bytes than requested without an error makes the send fail with a
short-write error; no retry of a partial write happens. -/
theorem claim_C6_one_write_per_step :
    (∀ (wconn : WConn) (j : Nat) (req : Message),
      (sendHeader wconn j req).j = j + 1 ∧
      (sendHeader wconn j req).ops = [.write req.header]) ∧
    (∀ (wconn : WConn) (j : Nat) (req : Message),
      (wconn j).errv = none → (wconn j).n ≠ messageHeaderSize →
      (sendHeader wconn j req).out = .err (.wrap "failed to send header" .shortWrite)) ∧
    (∀ (wconn : WConn) (j : Nat) (req : Message) (buf : List Nat),
      goSlice req.body1.Bytes req.body1.Offset = some buf →
      (wconn j).errv = none → (wconn j).n ≠ buf.length →
      sendBody wconn j req =
        ⟨.err (.wrap "failed to write body" .shortWrite), j + 1, [.write buf]⟩) ∧
    (∀ (wconn : WConn) (j : Nat) (req : Message) (buf : List Nat),
      goSlice req.body1.Bytes req.body1.Offset = some buf →
      (wconn j).errv = none → (wconn j).n = buf.length →
      req.body2 = none →
      sendBody wconn j req = ⟨.ok (), j + 1, [.write buf]⟩) ∧
    (∀ (wconn : WConn) (j : Nat) (req : Message) (buf buf2 : List Nat) (b2 : MsgBody),
      goSlice req.body1.Bytes req.body1.Offset = some buf →
      (wconn j).errv = none → (wconn j).n = buf.length →
      req.body2 = some b2 →
      goSlice b2.Bytes b2.Offset = some buf2 →
      (sendBody wconn j req).j = j + 2 ∧
      (sendBody wconn j req).ops = [.write buf, .write buf2] ∧
      ((wconn (j + 1)).errv = none → (wconn (j + 1)).n ≠ buf2.length →
        (sendBody wconn j req).out = .err (.wrap "failed to write body" .shortWrite))) := by
  refine ⟨?_, ?_, ?_, ?_, ?_⟩
  · intro wconn j req
    rcases hv : (wconn j).errv with _ | c <;>
      by_cases hn : (wconn j).n = messageHeaderSize <;>
        simp [sendHeader, hv, hn]
  · intro wconn j req he hn
    simp [sendHeader, he, hn]
  · intro wconn j req buf hg he hn
    simp [sendBody, hg, he, hn]
  · intro wconn j req buf hg he hn h2
    simp [sendBody, hg, he, hn, h2]
  · intro wconn j req buf buf2 b2 hg he hn h2 hg2
    rcases hv2 : (wconn (j + 1)).errv with _ | c
    · by_cases hn2 : (wconn (j + 1)).n = buf2.length <;>
        simp [sendBody, hg, he, hn, h2, hg2, hv2, hn2]
    · simp [sendBody, hg, he, hn, h2, hg2, hv2]

theorem claim_C6_witness :
    ((sendHeader wc3 0 msgS).j = 0 + 1 ∧ (sendHeader wc3 0 msgS).ops = [.write msgS.header]) ∧
    (sendHeader wc3 0 msgS).out = .err (.wrap "failed to send header" .shortWrite) ∧
    sendBody wc3 0 msgS =
      ⟨.err (.wrap "failed to write body" .shortWrite), 0 + 1, [.write [1, 2, 3, 4]]⟩ :=
  ⟨claim_C6_one_write_per_step.1 wc3 0 msgS,
   claim_C6_one_write_per_step.2.1 wc3 0 msgS rfl (by decide),
   claim_C6_one_write_per_step.2.2.1 wc3 0 msgS [1, 2, 3, 4] (by decide) rfl (by decide)⟩

theorem sendHeader_ops (wconn : WConn) (j : Nat) (req : Message) :
    (sendHeader wconn j req).ops = [.write req.header] := by
  rcases hv : (wconn j).errv with _ | c <;>
    by_cases hn : (wconn j).n = messageHeaderSize <;>
      simp [sendHeader, hv, hn]

theorem sendBody_ops_cases (wconn : WConn) (j : Nat) (req : Message) :
    (sendBody wconn j req).ops = [] ∨
    (∃ a, (sendBody wconn j req).ops = [.write a]) ∨
    (∃ a b, (sendBody wconn j req).ops = [.write a, .write b]) := by
  simp only [sendBody]
  split
  · exact .inl rfl
  · split
    · exact .inr (.inl ⟨_, rfl⟩)
    · split
      · exact .inr (.inl ⟨_, rfl⟩)
      · split
        · exact .inr (.inl ⟨_, rfl⟩)
        · split
          · exact .inr (.inl ⟨_, rfl⟩)
          · split
            · exact .inr (.inr ⟨_, _, rfl⟩)
            · split
              · exact .inr (.inr ⟨_, _, rfl⟩)
              · exact .inr (.inr ⟨_, _, rfl⟩)

theorem send_ops_writes (wconn : WConn) (j : Nat) (req : Message) :
    ∀ o ∈ (send wconn j req).ops, ∃ bs, o = COp.write bs := by
  intro o ho
  have hops := sendHeader_ops wconn j req
  rcases hs1 : (sendHeader wconn j req).out with u | e | _
  · simp only [send, hs1] at ho
    rcases hs2 : (sendBody wconn (sendHeader wconn j req).j req).out with u2 | e2 | _ <;>
      simp only [hs2, List.mem_append] at ho <;>
      ( rcases ho with ho | ho
        · rw [hops] at ho
          simp at ho
          exact ⟨_, ho⟩
        · rcases sendBody_ops_cases wconn (sendHeader wconn j req).j req with hc | ⟨a, hc⟩ | ⟨a, b, hc⟩ <;>
            rw [hc] at ho <;> simp at ho
          · exact ⟨_, ho⟩
          · rcases ho with rfl | rfl
            · exact ⟨_, rfl⟩
            · exact ⟨_, rfl⟩ )
  · simp only [send, hs1] at ho
    rw [hops] at ho
    simp at ho
    exact ⟨_, ho⟩
  · simp only [send, hs1] at ho
    rw [hops] at ho
    simp at ho
    exact ⟨_, ho⟩

theorem send_headerErr {wconn : WConn} {j : Nat} {req : Message} {e : Err}
    (h : (sendHeader wconn j req).out = .err e) :
    send wconn j req =
      ⟨.err (.wrap "failed to send header" e), (sendHeader wconn j req).j,
        (sendHeader wconn j req).ops⟩ := by
  simp [send, h]

theorem send_bodyErr {wconn : WConn} {j : Nat} {req : Message} {e : Err}
    (h1 : (sendHeader wconn j req).out = .ok ())
    (h2 : (sendBody wconn (sendHeader wconn j req).j req).out = .err e) :
    send wconn j req =
      ⟨.err (.wrap "failed to send body" e),
        (sendBody wconn (sendHeader wconn j req).j req).j,
        (sendHeader wconn j req).ops ++ (sendBody wconn (sendHeader wconn j req).j req).ops⟩ := by
  simp [send, h1, h2]

theorem recv_headerErr {conn : RConn} {k : Nat} {res : Message} {e : Err} {k' : Nat}
    (h : recvHeader conn k res = (.error e, k')) :
    recv conn k res = (.err (.wrap "failed to receive header" e), k') := by
  simp [recv, h]

theorem recv_bodyErr {conn : RConn} {k : Nat} {res res1 : Message} {k' : Nat} {e : Err} {k2 : Nat}
    (h1 : recvHeader conn k res = (.ok res1, k'))
    (h2 : recvBody conn k' res1 = (.err e, k2)) :
    recv conn k res = (.err (.wrap "failed to receive body" e), k2) := by
  simp [recv, h1, h2]

theorem Call_muLocked (ctx : Ctx) (rconn : RConn) (wconn : WConn) (rk wk : Nat)
    (request response : Message) :
    (Call ctx rconn wconn rk wk request response).muLocked = false := by
  rcases hs : (send wconn wk request).out with u | e | _
  · rcases hr : recv rconn rk response with ⟨o2, k2⟩
    rcases o2 with res2 | e2 | _ <;> simp [Call, hs, hr]
  · simp [Call, hs]
  · simp [Call, hs]

theorem Call_sendErr {ctx : Ctx} {rconn : RConn} {wconn : WConn} {rk wk : Nat}
    {request response : Message} {e : Err}
    (h : (send wconn wk request).out = .err e) :
    Call ctx rconn wconn rk wk request response =
      ⟨.err (.wrap "failed to send request" e), rk, (send wconn wk request).j,
        (send wconn wk request).ops, false⟩ := by
  simp [Call, h]

theorem Call_recvErr {ctx : Ctx} {rconn : RConn} {wconn : WConn} {rk wk : Nat}
    {request response : Message} {e : Err} {k2 : Nat}
    (h1 : (send wconn wk request).out = .ok ())
    (h2 : recv rconn rk response = (.err e, k2)) :
    Call ctx rconn wconn rk wk request response =
      ⟨.err (.wrap "failed to receive response" e), k2, (send wconn wk request).j,
        (send wconn wk request).ops ++ recvOps rk k2, false⟩ := by
  simp [Call, h1, h2]

theorem Call_ops_split (ctx : Ctx) (rconn : RConn) (wconn : WConn) (rk wk : Nat)
    (request response : Message) :
    ∃ wops rops, (Call ctx rconn wconn rk wk request response).ops = wops ++ rops ∧
      (∀ o ∈ wops, ∃ bs, o = COp.write bs) ∧ (∀ o ∈ rops, o = COp.read) := by
  rcases hs : (send wconn wk request).out with u | e | _
  · rcases hr : recv rconn rk response with ⟨o2, k2⟩
    rcases o2 with res2 | e2 | _ <;>
      ( refine ⟨(send wconn wk request).ops, recvOps rk k2, by simp [Call, hs, hr],
          send_ops_writes wconn wk request, ?_⟩
        intro o ho
        exact List.eq_of_mem_replicate ho )
  · exact ⟨(send wconn wk request).ops, [], by simp [Call, hs],
      send_ops_writes wconn wk request, by simp⟩
  · exact ⟨(send wconn wk request).ops, [], by simp [Call, hs],
      send_ops_writes wconn wk request, by simp⟩

/-- C7: in every `Call` the send strictly precedes the receive (the wire
trace is writes then reads, and a send failure aborts the call before
any read); a failure in any phase surfaces as an error whose wrap chain
names that phase (send header / send body / receive header / receive
body); and the mutex is released on every path. -/
theorem claim_C7_call_phases (ctx : Ctx) (rconn : RConn) (wconn : WConn)
    (rk wk : Nat) (request response : Message) :
    (Call ctx rconn wconn rk wk request response).muLocked = false ∧
    (∃ wops rops, (Call ctx rconn wconn rk wk request response).ops = wops ++ rops ∧
      (∀ o ∈ wops, ∃ bs, o = COp.write bs) ∧ (∀ o ∈ rops, o = COp.read)) ∧
    (∀ e, (send wconn wk request).out = .err e →
      (Call ctx rconn wconn rk wk request response).out = .err (.wrap "failed to send request" e) ∧
      (Call ctx rconn wconn rk wk request response).ops = (send wconn wk request).ops) ∧
    (∀ e k2, (send wconn wk request).out = .ok () → recv rconn rk response = (.err e, k2) →
      (Call ctx rconn wconn rk wk request response).out =
        .err (.wrap "failed to receive response" e)) ∧
    (∀ e, (sendHeader wconn wk request).out = .err e →
      ∃ e', (Call ctx rconn wconn rk wk request response).out = .err e' ∧
        e'.mentions "failed to send header" = true) ∧
    (∀ e, (sendHeader wconn wk request).out = .ok () →
      (sendBody wconn (sendHeader wconn wk request).j request).out = .err e →
      ∃ e', (Call ctx rconn wconn rk wk request response).out = .err e' ∧
        e'.mentions "failed to send body" = true) ∧
    (∀ e k', (send wconn wk request).out = .ok () →
      recvHeader rconn rk response = (.error e, k') →
      ∃ e', (Call ctx rconn wconn rk wk request response).out = .err e' ∧
        e'.mentions "failed to receive header" = true) ∧
    (∀ e res1 k' k2, (send wconn wk request).out = .ok () →
      recvHeader rconn rk response = (.ok res1, k') → recvBody rconn k' res1 = (.err e, k2) →
      ∃ e', (Call ctx rconn wconn rk wk request response).out = .err e' ∧
        e'.mentions "failed to receive body" = true) := by
  refine ⟨Call_muLocked ctx rconn wconn rk wk request response,
    Call_ops_split ctx rconn wconn rk wk request response, ?_, ?_, ?_, ?_, ?_, ?_⟩
  · intro e h
    rw [Call_sendErr h]
    exact ⟨rfl, rfl⟩
  · intro e k2 h1 h2
    rw [Call_recvErr h1 h2]
  · intro e h
    have hs : (send wconn wk request).out = .err (.wrap "failed to send header" e) := by
      rw [send_headerErr h]
    refine ⟨.wrap "failed to send request" (.wrap "failed to send header" e), ?_, ?_⟩
    · rw [Call_sendErr hs]
    · simp [Err.mentions]
  · intro e h1 h2
    have hs : (send wconn wk request).out = .err (.wrap "failed to send body" e) := by
      rw [send_bodyErr h1 h2]
    refine ⟨.wrap "failed to send request" (.wrap "failed to send body" e), ?_, ?_⟩
    · rw [Call_sendErr hs]
    · simp [Err.mentions]
  · intro e k' h1 h2
    have hr : recv rconn rk response = (.err (.wrap "failed to receive header" e), k') :=
      recv_headerErr h2
    refine ⟨.wrap "failed to receive response" (.wrap "failed to receive header" e), ?_, ?_⟩
    · rw [Call_recvErr h1 hr]
    · simp [Err.mentions]
  · intro e res1 k' k2 h1 h2 h3
    have hr : recv rconn rk response = (.err (.wrap "failed to receive body" e), k2) :=
      recv_bodyErr h2 h3
    refine ⟨.wrap "failed to receive response" (.wrap "failed to receive body" e), ?_, ?_⟩
    · rw [Call_recvErr h1 hr]
    · simp [Err.mentions]

theorem claim_C7_witness :
    (Call ctx0 emptyReadConn wc3 0 0 msgS msg0).muLocked = false ∧
    ((Call ctx0 emptyReadConn wc3 0 0 msgS msg0).out =
        .err (.wrap "failed to send request"
          (.wrap "failed to send header" (.wrap "failed to send header" .shortWrite))) ∧
      (Call ctx0 emptyReadConn wc3 0 0 msgS msg0).ops = (send wc3 0 msgS).ops) ∧
    (∃ e', (Call ctx0 emptyReadConn wc3 0 0 msgS msg0).out = .err e' ∧
      e'.mentions "failed to send header" = true) :=
  ⟨(claim_C7_call_phases ctx0 emptyReadConn wc3 0 0 msgS msg0).1,
   (claim_C7_call_phases ctx0 emptyReadConn wc3 0 0 msgS msg0).2.2.1
     (.wrap "failed to send header" (.wrap "failed to send header" .shortWrite)) rfl,
   (claim_C7_call_phases ctx0 emptyReadConn wc3 0 0 msgS msg0).2.2.2.2.1
     (.wrap "failed to send header" .shortWrite) rfl⟩

/-- C9: the deadline/cancellation context passed to `Call` is never
consulted: for identical connection behaviour and messages, two runs
with any two contexts produce identical results and identical connection
operations. -/
theorem claim_C9_ctx_unused (ctx1 ctx2 : Ctx) (rconn : RConn) (wconn : WConn)
    (rk wk : Nat) (request response : Message) :
    Call ctx1 rconn wconn rk wk request response =
      Call ctx2 rconn wconn rk wk request response := rfl

theorem isSetAt_false_of_tick_ne {ev : HbEvent} {k : Nat} (h : ev.tick ≠ k) :
    ev.isSetAt k = false := by
  cases ev with
  | call t => rfl
  | decode t => rfl
  | setAddrs t a =>
    simp only [HbEvent.isSetAt]
    exact beq_eq_false_iff_ne.mpr (by simpa [HbEvent.tick] using h)

theorem heartbeatRun_tick_ge (env : Nat → TickEnv) :
    ∀ (fuel k : Nat) (ev : HbEvent), ev ∈ heartbeatRun env k fuel → k ≤ ev.tick := by
  intro fuel
  induction fuel with
  | zero =>
    intro k ev h
    simp [heartbeatRun] at h
  | succ fuel ih =>
    intro k ev h
    rw [heartbeatRun] at h
    by_cases hc : (env k).closed
    · simp [hc] at h
    · simp only [hc, Bool.false_eq_true, if_false] at h
      rcases hcall : (env k).callErr with _ | e1
      · rw [hcall] at h
        rcases hdec : (env k).decodeRes with e2 | addrs
        · rw [hdec] at h
          simp at h
          rcases h with rfl | rfl <;> simp [HbEvent.tick]
        · rw [hdec] at h
          rcases hset : (env k).setErr with _ | e3
          · rw [hset] at h
            simp at h
            rcases h with rfl | rfl | rfl | hmem
            · simp [HbEvent.tick]
            · simp [HbEvent.tick]
            · simp [HbEvent.tick]
            · have := ih (k + 1) ev hmem
              omega
          · rw [hset] at h
            simp at h
            rcases h with rfl | rfl | rfl <;> simp [HbEvent.tick]
      · rw [hcall] at h
        simp at h
        subst h
        simp [HbEvent.tick]

theorem heartbeatRun_tick_ok (env : Nat → TickEnv) :
    ∀ (fuel k : Nat) (ev : HbEvent), ev ∈ heartbeatRun env k fuel →
    ∀ j, k ≤ j → j < ev.tick → tickOk (env j) := by
  intro fuel
  induction fuel with
  | zero =>
    intro k ev h
    simp [heartbeatRun] at h
  | succ fuel ih =>
    intro k ev h j hkj hjt
    rw [heartbeatRun] at h
    by_cases hc : (env k).closed
    · simp [hc] at h
    · simp only [hc, Bool.false_eq_true, if_false] at h
      rcases hcall : (env k).callErr with _ | e1
      · rw [hcall] at h
        rcases hdec : (env k).decodeRes with e2 | addrs
        · rw [hdec] at h
          simp at h
          rcases h with rfl | rfl <;> simp [HbEvent.tick] at hjt <;> omega
        · rw [hdec] at h
          rcases hset : (env k).setErr with _ | e3
          · rw [hset] at h
            have hok : tickOk (env k) :=
              ⟨Bool.not_eq_true _ ▸ by simpa using hc, hcall, ⟨addrs, hdec⟩, hset⟩
            simp at h
            rcases h with rfl | rfl | rfl | hmem
            · simp [HbEvent.tick] at hjt
              omega
            · simp [HbEvent.tick] at hjt
              omega
            · simp [HbEvent.tick] at hjt
              omega
            · rcases Nat.eq_or_lt_of_le hkj with rfl | hlt
              · exact hok
              · exact ih (k + 1) ev hmem j hlt hjt
          · rw [hset] at h
            simp at h
            rcases h with rfl | rfl | rfl <;> simp [HbEvent.tick] at hjt <;> omega
      · rw [hcall] at h
        simp at h
        subst h
        simp [HbEvent.tick] at hjt
        omega

/-- C8: a failing heartbeat tick (stop signal, `Call` error, decode
error or store error) terminates the loop — no event of any later tick
ever occurs, for any observation length; and a successful tick performs
its three steps, publishes exactly one `Set` carrying the decoded
address list, and continues with the next tick. -/
theorem claim_C8_heartbeat_terminal (env : Nat → TickEnv) :
    (∀ (fuel j : Nat) (ev : HbEvent), ¬ tickOk (env j) →
      ev ∈ heartbeatRun env 0 fuel → ev.tick ≤ j) ∧
    (∀ (fuel k : Nat) (addrs : List String),
      tickOk (env k) → (env k).decodeRes = .ok addrs →
      heartbeatRun env k (fuel + 1) =
        .call k :: .decode k :: .setAddrs k addrs :: heartbeatRun env (k + 1) fuel ∧
      (heartbeatRun env k (fuel + 1)).filter (fun ev => ev.isSetAt k) =
        [.setAddrs k addrs]) := by
  constructor
  · intro fuel j ev hbad hmem
    by_contra hgt
    exact hbad (heartbeatRun_tick_ok env fuel 0 ev hmem j (Nat.zero_le j) (by omega))
  · intro fuel k addrs hok hdec
    obtain ⟨hc, hcall, _, hset⟩ := hok
    have hstep : heartbeatRun env k (fuel + 1) =
        .call k :: .decode k :: .setAddrs k addrs :: heartbeatRun env (k + 1) fuel := by
      rw [heartbeatRun]
      simp [hc, hcall, hdec, hset]
    refine ⟨hstep, ?_⟩
    rw [hstep]
    have htail : (heartbeatRun env (k + 1) fuel).filter (fun ev => ev.isSetAt k) = [] := by
      rw [List.filter_eq_nil]
      intro a ha
      have := heartbeatRun_tick_ge env fuel (k + 1) a ha
      simp [isSetAt_false_of_tick_ne (by omega : a.tick ≠ k)]
    have h1 : HbEvent.isSetAt (.call k) k = false := rfl
    have h2 : HbEvent.isSetAt (.decode k) k = false := rfl
    have h3 : HbEvent.isSetAt (.setAddrs k addrs) k = true := by
      simp [HbEvent.isSetAt]
    simp only [List.filter_cons, h1, h2, h3, Bool.false_eq_true, if_false, if_true, htail]

theorem claim_C8_witness :
    HbEvent.tick (.call 1) ≤ 1 ∧
    heartbeatRun env0 0 (4 + 1) =
      .call 0 :: .decode 0 ::
        .setAddrs 0 ["10.0.0.1:9000", "10.0.0.2:9000"] :: heartbeatRun env0 1 4 ∧
    (heartbeatRun env0 0 (4 + 1)).filter (fun ev => ev.isSetAt 0) =
      [.setAddrs 0 ["10.0.0.1:9000", "10.0.0.2:9000"]] :=
  ⟨(claim_C8_heartbeat_terminal env0).1 5 1 (.call 1)
      (by intro h; simpa [env0] using h.2.1) (by decide),
   ((claim_C8_heartbeat_terminal env0).2 4 0 ["10.0.0.1:9000", "10.0.0.2:9000"]
      ⟨rfl, rfl, ⟨["10.0.0.1:9000", "10.0.0.2:9000"], rfl⟩, rfl⟩ rfl).1,
   ((claim_C8_heartbeat_terminal env0).2 4 0 ["10.0.0.1:9000", "10.0.0.2:9000"]
      ⟨rfl, rfl, ⟨["10.0.0.1:9000", "10.0.0.2:9000"], rfl⟩, rfl⟩ rfl).2⟩

theorem lockInv_init (sA sB : List COp) : LockInv sA sB initLockSt := by
  refine ⟨by simp [initLockSt], by simp [initLockSt], ?_, ?_, ?_⟩
  · simp [initLockSt]
  · simp [initLockSt]
  · left
    simp [initLockSt, blockA, blockB, emA, emB]

theorem blockA_take_succ {sA : List COp} {s s' : LockSt} {i : Nat} (h : i < sA.length)
    (hpre : s.pcA = i + 1) (hpost : s'.pcA = i + 2) :
    blockA sA s' = blockA sA s ++ [(false, sA.get ⟨i, h⟩)] := by
  have e1 : emA sA s = i := by
    simp only [emA, hpre]
    omega
  have e2 : emA sA s' = i + 1 := by
    simp only [emA, hpost]
    omega
  have e3 : sA.take (i + 1) = sA.take i ++ [sA.get ⟨i, h⟩] := by
    rw [List.take_succ, List.getElem?_eq_getElem h]
    simp [List.get_eq_getElem]
  unfold blockA
  rw [e1, e2, e3, List.map_append]
  rfl

theorem blockB_take_succ {sB : List COp} {s s' : LockSt} {i : Nat} (h : i < sB.length)
    (hpre : s.pcB = i + 1) (hpost : s'.pcB = i + 2) :
    blockB sB s' = blockB sB s ++ [(true, sB.get ⟨i, h⟩)] := by
  have e1 : emB sB s = i := by
    simp only [emB, hpre]
    omega
  have e2 : emB sB s' = i + 1 := by
    simp only [emB, hpost]
    omega
  have e3 : sB.take (i + 1) = sB.take i ++ [sB.get ⟨i, h⟩] := by
    rw [List.take_succ, List.getElem?_eq_getElem h]
    simp [List.get_eq_getElem]
  unfold blockB
  rw [e1, e2, e3, List.map_append]
  rfl

theorem blockA_congr {sA : List COp} {s s' : LockSt} (h : emA sA s' = emA sA s) :
    blockA sA s' = blockA sA s := by
  unfold blockA
  rw [h]

theorem blockB_congr {sB : List COp} {s s' : LockSt} (h : emB sB s' = emB sB s) :
    blockB sB s' = blockB sB s := by
  unfold blockB
  rw [h]

theorem blockA_nil {sA : List COp} {s : LockSt} (h : emA sA s = 0) :
    blockA sA s = [] := by
  unfold blockA
  rw [h]
  rfl

theorem blockB_nil {sB : List COp} {s : LockSt} (h : emB sB s = 0) :
    blockB sB s = [] := by
  unfold blockB
  rw [h]
  rfl

theorem lockInv_step {sA sB : List COp} {s s' : LockSt}
    (inv : LockInv sA sB s) (st : CallStep sA sB s s') : LockInv sA sB s' := by
  obtain ⟨hbA, hbB, hiffA, hiffB, hdisj⟩ := inv
  cases st with
  | lockA hh hpc =>
    have eA : blockA sA { s with holder := some false, pcA := 1 } = blockA sA s := by
      apply blockA_congr
      simp only [emA, hpc]
    have eB : blockB sB { s with holder := some false, pcA := 1 } = blockB sB s := rfl
    refine ⟨?_, ?_, ?_, ?_, ?_⟩
    · show 1 ≤ sA.length + 2
      omega
    · show s.pcB ≤ sB.length + 2
      exact hbB
    · show (1 ≤ 1 ∧ 1 ≤ sA.length + 1) ↔ some false = some false
      constructor
      · intro _
        rfl
      · intro _
        exact ⟨le_refl 1, by omega⟩
    · show (1 ≤ s.pcB ∧ s.pcB ≤ sB.length + 1) ↔ some false = some true
      rw [hh] at hiffB
      constructor
      · intro hx
        exact absurd (hiffB.mp hx) (by simp)
      · intro hc
        simp at hc
    · rcases hdisj with ⟨h1, h2⟩ | ⟨h1, h2⟩
      · left
        refine ⟨?_, ?_⟩
        · show s.tr = _
          rw [eA, eB]
          exact h1
        · rw [eB]
          intro hne
          have := h2 hne
          show (1 : Nat) = sA.length + 2
          omega
      · right
        refine ⟨?_, ?_⟩
        · show s.tr = _
          rw [eA, eB]
          exact h1
        · rw [eA]
          exact h2
  | @emitA i hh hpc h =>
    have eA : blockA sA { s with pcA := i + 2, tr := s.tr ++ [(false, sA.get ⟨i, h⟩)] } =
        blockA sA s ++ [(false, sA.get ⟨i, h⟩)] := blockA_take_succ h hpc rfl
    have eB : blockB sB { s with pcA := i + 2, tr := s.tr ++ [(false, sA.get ⟨i, h⟩)] } =
        blockB sB s := rfl
    have hnB : ¬(1 ≤ s.pcB ∧ s.pcB ≤ sB.length + 1) := by
      rw [hh] at hiffB
      intro hx
      have := hiffB.mp hx
      simp at this
    have hpcB : s.pcB = 0 ∨ s.pcB = sB.length + 2 := by omega
    refine ⟨?_, ?_, ?_, ?_, ?_⟩
    · show i + 2 ≤ sA.length + 2
      omega
    · show s.pcB ≤ sB.length + 2
      exact hbB
    · show (1 ≤ i + 2 ∧ i + 2 ≤ sA.length + 1) ↔ s.holder = some false
      constructor
      · intro _
        exact hh
      · intro _
        exact ⟨by omega, by omega⟩
    · show (1 ≤ s.pcB ∧ s.pcB ≤ sB.length + 1) ↔ s.holder = some true
      constructor
      · intro hx
        exact absurd hx hnB
      · intro hc
        rw [hh] at hc
        simp at hc
    · rcases hpcB with hb0 | hb2
      · have eBnil : blockB sB s = [] := by
          apply blockB_nil
          simp [emB, hb0]
        have htrA : s.tr = blockA sA s := by
          rcases hdisj with ⟨h1, _⟩ | ⟨h1, _⟩
          · rw [h1, eBnil, List.append_nil]
          · rw [h1, eBnil, List.nil_append]
        left
        refine ⟨?_, ?_⟩
        · show s.tr ++ _ = _
          rw [eA, eB, eBnil, List.append_nil, htrA]
        · rw [eB, eBnil]
          intro hne
          exact absurd rfl hne
      · rcases hdisj with ⟨h1, h2⟩ | ⟨h1, h2⟩
        · have eBnil : blockB sB s = [] := by
            by_contra hne
            have := h2 hne
            omega
          rw [eBnil, List.append_nil] at h1
          right
          refine ⟨?_, ?_⟩
          · show s.tr ++ _ = _
            rw [eA, eB, eBnil, List.nil_append, h1]
          · intro _
            show s.pcB = sB.length + 2
            exact hb2
        · right
          refine ⟨?_, ?_⟩
          · show s.tr ++ _ = _
            rw [eA, eB, h1, List.append_assoc]
          · intro _
            show s.pcB = sB.length + 2
            exact hb2
  | unlockA hh hpc =>
    have eA : blockA sA { s with holder := none, pcA := sA.length + 2 } = blockA sA s := by
      apply blockA_congr
      simp only [emA, hpc]
      omega
    have eB : blockB sB { s with holder := none, pcA := sA.length + 2 } = blockB sB s := rfl
    have hnB : ¬(1 ≤ s.pcB ∧ s.pcB ≤ sB.length + 1) := by
      rw [hh] at hiffB
      intro hx
      have := hiffB.mp hx
      simp at this
    refine ⟨?_, ?_, ?_, ?_, ?_⟩
    · show sA.length + 2 ≤ sA.length + 2
      omega
    · show s.pcB ≤ sB.length + 2
      exact hbB
    · show (1 ≤ sA.length + 2 ∧ sA.length + 2 ≤ sA.length + 1) ↔ (none : Option TID) = some false
      constructor
      · intro hx
        exact absurd hx (by omega)
      · intro hc
        simp at hc
    · show (1 ≤ s.pcB ∧ s.pcB ≤ sB.length + 1) ↔ (none : Option TID) = some true
      constructor
      · intro hx
        exact absurd hx hnB
      · intro hc
        simp at hc
    · rcases hdisj with ⟨h1, h2⟩ | ⟨h1, h2⟩
      · left
        refine ⟨?_, ?_⟩
        · show s.tr = _
          rw [eA, eB]
          exact h1
        · rw [eB]
          intro _
          rfl
      · right
        refine ⟨?_, ?_⟩
        · show s.tr = _
          rw [eA, eB]
          exact h1
        · rw [eA]
          exact h2
  | lockB hh hpc =>
    have eB : blockB sB { s with holder := some true, pcB := 1 } = blockB sB s := by
      apply blockB_congr
      simp only [emB, hpc]
    have eA : blockA sA { s with holder := some true, pcB := 1 } = blockA sA s := rfl
    refine ⟨?_, ?_, ?_, ?_, ?_⟩
    · show s.pcA ≤ sA.length + 2
      exact hbA
    · show 1 ≤ sB.length + 2
      omega
    · show (1 ≤ s.pcA ∧ s.pcA ≤ sA.length + 1) ↔ some true = some false
      rw [hh] at hiffA
      constructor
      · intro hx
        exact absurd (hiffA.mp hx) (by simp)
      · intro hc
        simp at hc
    · show (1 ≤ 1 ∧ 1 ≤ sB.length + 1) ↔ some true = some true
      constructor
      · intro _
        rfl
      · intro _
        exact ⟨le_refl 1, by omega⟩
    · rcases hdisj with ⟨h1, h2⟩ | ⟨h1, h2⟩
      · left
        refine ⟨?_, ?_⟩
        · show s.tr = _
          rw [eA, eB]
          exact h1
        · rw [eB]
          exact h2
      · right
        refine ⟨?_, ?_⟩
        · show s.tr = _
          rw [eA, eB]
          exact h1
        · rw [eA]
          intro hne
          have := h2 hne
          show (1 : Nat) = sB.length + 2
          omega
  | @emitB i hh hpc h =>
    have eB : blockB sB { s with pcB := i + 2, tr := s.tr ++ [(true, sB.get ⟨i, h⟩)] } =
        blockB sB s ++ [(true, sB.get ⟨i, h⟩)] := blockB_take_succ h hpc rfl
    have eA : blockA sA { s with pcB := i + 2, tr := s.tr ++ [(true, sB.get ⟨i, h⟩)] } =
        blockA sA s := rfl
    have hnA : ¬(1 ≤ s.pcA ∧ s.pcA ≤ sA.length + 1) := by
      rw [hh] at hiffA
      intro hx
      have := hiffA.mp hx
      simp at this
    have hpcA : s.pcA = 0 ∨ s.pcA = sA.length + 2 := by omega
    refine ⟨?_, ?_, ?_, ?_, ?_⟩
    · show s.pcA ≤ sA.length + 2
      exact hbA
    · show i + 2 ≤ sB.length + 2
      omega
    · show (1 ≤ s.pcA ∧ s.pcA ≤ sA.length + 1) ↔ s.holder = some false
      constructor
      · intro hx
        exact absurd hx hnA
      · intro hc
        rw [hh] at hc
        simp at hc
    · show (1 ≤ i + 2 ∧ i + 2 ≤ sB.length + 1) ↔ s.holder = some true
      constructor
      · intro _
        exact hh
      · intro _
        exact ⟨by omega, by omega⟩
    · rcases hpcA with ha0 | ha2
      · have eAnil : blockA sA s = [] := by
          apply blockA_nil
          simp [emA, ha0]
        have htrB : s.tr = blockB sB s := by
          rcases hdisj with ⟨h1, _⟩ | ⟨h1, _⟩
          · rw [h1, eAnil, List.nil_append]
          · rw [h1, eAnil, List.append_nil]
        right
        refine ⟨?_, ?_⟩
        · show s.tr ++ _ = _
          rw [eA, eB, eAnil, List.append_nil, htrB]
        · rw [eA, eAnil]
          intro hne
          exact absurd rfl hne
      · rcases hdisj with ⟨h1, h2⟩ | ⟨h1, h2⟩
        · left
          refine ⟨?_, ?_⟩
          · show s.tr ++ _ = _
            rw [eA, eB, h1, List.append_assoc]
          · intro _
            show s.pcA = sA.length + 2
            exact ha2
        · have eAnil : blockA sA s = [] := by
            by_contra hne
            have := h2 hne
            omega
          rw [eAnil, List.append_nil] at h1
          left
          refine ⟨?_, ?_⟩
          · show s.tr ++ _ = _
            rw [eA, eB, eAnil, List.nil_append, h1]
          · intro _
            show s.pcA = sA.length + 2
            exact ha2
  | unlockB hh hpc =>
    have eB : blockB sB { s with holder := none, pcB := sB.length + 2 } = blockB sB s := by
      apply blockB_congr
      simp only [emB, hpc]
      omega
    have eA : blockA sA { s with holder := none, pcB := sB.length + 2 } = blockA sA s := rfl
    have hnA : ¬(1 ≤ s.pcA ∧ s.pcA ≤ sA.length + 1) := by
      rw [hh] at hiffA
      intro hx
      have := hiffA.mp hx
      simp at this
    refine ⟨?_, ?_, ?_, ?_, ?_⟩
    · show s.pcA ≤ sA.length + 2
      exact hbA
    · show sB.length + 2 ≤ sB.length + 2
      omega
    · show (1 ≤ s.pcA ∧ s.pcA ≤ sA.length + 1) ↔ (none : Option TID) = some false
      constructor
      · intro hx
        exact absurd hx hnA
      · intro hc
        simp at hc
    · show (1 ≤ sB.length + 2 ∧ sB.length + 2 ≤ sB.length + 1) ↔ (none : Option TID) = some true
      constructor
      · intro hx
        exact absurd hx (by omega)
      · intro hc
        simp at hc
    · rcases hdisj with ⟨h1, h2⟩ | ⟨h1, h2⟩
      · left
        refine ⟨?_, ?_⟩
        · show s.tr = _
          rw [eA, eB]
          exact h1
        · rw [eB]
          exact h2
      · right
        refine ⟨?_, ?_⟩
        · show s.tr = _
          rw [eA, eB]
          exact h1
        · rw [eA]
          intro _
          rfl

theorem lockInv_reach {sA sB : List COp} {s : LockSt} (h : ReachCall sA sB s) :
    LockInv sA sB s := by
  induction h with
  | init => exact lockInv_init sA sB
  | step _ hs ih => exact lockInv_step ih hs

/-- C3: for two concurrent `Call` invocations whose critical sections
perform the connection operations `sA` and `sB` under the Client's
mutex, every reachable wire trace is one caller's contiguous block of
operations followed by the other's — the operations of the two calls
never interleave. -/
theorem claim_C3_calls_serialized (sA sB : List COp) (s : LockSt)
    (h : ReachCall sA sB s) :
    (s.tr = blockA sA s ++ blockB sB s ∨ s.tr = blockB sB s ++ blockA sA s) ∧
    (∀ x ∈ blockA sA s, x.1 = false) ∧ (∀ x ∈ blockB sB s, x.1 = true) := by
  have inv := lockInv_reach h
  refine ⟨?_, ?_, ?_⟩
  · rcases inv.2.2.2.2 with ⟨h1, _⟩ | ⟨h1, _⟩
    · exact .inl h1
    · exact .inr h1
  · intro x hx
    obtain ⟨o, _, rfl⟩ := List.mem_map.mp hx
    rfl
  · intro x hx
    obtain ⟨o, _, rfl⟩ := List.mem_map.mp hx
    rfl

theorem claim_C3_witness :
    ((⟨none, 3, 0, [(false, COp.read)]⟩ : LockSt).tr =
        blockA [COp.read] ⟨none, 3, 0, [(false, COp.read)]⟩ ++
          blockB [] ⟨none, 3, 0, [(false, COp.read)]⟩ ∨
      (⟨none, 3, 0, [(false, COp.read)]⟩ : LockSt).tr =
        blockB [] ⟨none, 3, 0, [(false, COp.read)]⟩ ++
          blockA [COp.read] ⟨none, 3, 0, [(false, COp.read)]⟩) ∧
    (∀ x ∈ blockA [COp.read] (⟨none, 3, 0, [(false, COp.read)]⟩ : LockSt), x.1 = false) ∧
    (∀ x ∈ blockB [] (⟨none, 3, 0, [(false, COp.read)]⟩ : LockSt), x.1 = true) := by
  have h0 : ReachCall [COp.read] [] initLockSt := .init
  have h1 : ReachCall [COp.read] [] ⟨some false, 1, 0, []⟩ :=
    h0.step (CallStep.lockA rfl rfl)
  have h2 : ReachCall [COp.read] [] ⟨some false, 2, 0, [(false, COp.read)]⟩ :=
    h1.step (CallStep.emitA (i := 0) rfl rfl (by decide))
  have h3 : ReachCall [COp.read] [] ⟨none, 3, 0, [(false, COp.read)]⟩ :=
    h2.step (CallStep.unlockA rfl rfl)
  exact claim_C3_calls_serialized [COp.read] [] ⟨none, 3, 0, [(false, COp.read)]⟩ h3
